import Mathlib

/-!
Shallow embedding of `mvpa2/misc/surfing/surf_voxel_selection.py` (PyMVPA).

Conventions used throughout:
* Python dicts that the code only ever builds, looks up and iterates are
  embedded as association lists (`List (key × value)`), in insertion order.
* Python floats are embedded as `ℚ` (the concrete float values the module
  manipulates are produced and compared exactly; rounding is not modelled),
  except for the radius optimizer where the code computes a square root,
  which forces `ℝ` (see the optimizer section).
* Fallible code returns `Except SvsError _`; the error constructors record
  the concrete Python exception the interpreter would raise.
* `xrange`-loops are embedded as structurally recursive functions on an
  explicit fuel argument equal to the remaining number of iterations.
-/

/-- Voxel attribute dictionary built by `VoxelSelector.nodes2voxel_attributes`
(`voxel_attributes` in the source): a dict with exactly the three keys
`linear_voxel_indices`, `center_distances`, `grey_matter_position`, each
mapping to a list; index `i` of each list refers to the same voxel.
Note a Python dict with these three keys is *always truthy*, whether or not
the three lists are empty. -/
structure VoxProps where
  linear_voxel_indices : List ℕ
  center_distances : List ℚ
  grey_matter_position : List ℚ
deriving DecidableEq

/-- The node-to-voxel table `n2v` (output of `volsurf.node2voxels`): maps a
node id to either `none` (the Python value `None`: node outside the volume)
or `some vps`, where `vps` maps each enclosed voxel id to its relative
grey-matter position. -/
abbrev N2V := List (ℕ × Option (List (ℕ × ℚ)))

/-- Concrete Python exceptions `disc_voxel_attributes` can raise. -/
inductive SvsError where
  /-- Line 277 of the source reads
  `raise ValueError("Failure to increase radius to get %d voxels for " " node #%d" (radius, src))`:
  the `%` operator is missing, so Python calls the string with the tuple
  `(radius, src)` and raises `TypeError: 'str' object is not callable`
  instead of the intended descriptive `ValueError`. -/
  | strFormatTypeError
  /-- Evaluating `voxel_attributes[CENTER_DISTANCES][-1]` on an empty array
  raises `IndexError: index -1 is out of bounds for axis 0 with size 0`. -/
  | emptyIndexError
deriving DecidableEq

/-- Python value returned by `disc_voxel_attributes`: the literal empty list
`[]` (line 247), `None` (only reachable through the dead exhaustion path),
or the three-key voxel attribute dict. -/
inductive PyReturn where
  | pyNone
  | pyEmptyList
  | pyDict (vp : VoxProps)
deriving DecidableEq

/-- The `outside_node_margin` parameter: `None`, the Python constant `True`,
`np.inf` (the `math.isinf` branch), or a finite float. -/
inductive OutsideMargin where
  | omNone
  | omTrue
  | omInf
  | omFinite (m : ℚ)
deriving DecidableEq

/-! ### NeighborhoodAggregator: `VoxelSelector.nodes2voxel_attributes` -/

/-- Comparison of two `(distance, position)` tuples exactly as Python's
`min` compares tuples: lexicographically, distance first. -/
def lexLe (a b : ℚ × ℚ) : Prop :=
  a.1 < b.1 ∨ (a.1 = b.1 ∧ a.2 ≤ b.2)

instance (a b : ℚ × ℚ) : Decidable (lexLe a b) := by
  unfold lexLe; infer_instance

/-- Binary minimum of two `(distance, position)` tuples under `lexLe`. -/
def lexMin2 (a b : ℚ × ℚ) : ℚ × ℚ :=
  if a.1 < b.1 then a else if b.1 < a.1 then b else if a.2 ≤ b.2 then a else b

/-- Python's `min` over the candidate set `dp` of a voxel (`min(dp)` in
`unpack_dp`). `min([])` would raise in Python; the `[]` case is unreachable
because every recorded voxel has at least one candidate. -/
def lexMinList : List (ℚ × ℚ) → ℚ × ℚ
  | [] => (0, 0)
  | a :: t => t.foldl lexMin2 a

/-- One `v2dps[vx].add((d, pos))` step: append the candidate pair to the
entry for voxel `vx`, creating the entry if absent.  The accumulator is the
`defaultdict(set)` `v2dps`, embedded as an association list in insertion
order; recording a duplicate pair is harmless because only `min` of the
collection is ever used. -/
def addCand (vx : ℕ) (dp : ℚ × ℚ) : List (ℕ × List (ℚ × ℚ)) → List (ℕ × List (ℚ × ℚ))
  | [] => [(vx, [dp])]
  | (v, l) :: t => if v = vx then (v, l ++ [dp]) :: t else (v, l) :: addCand vx dp t

/-- Inner loop `for vx, pos in vps.items(): v2dps[vx].add((d, pos))`. -/
def addNodeCands (d : ℚ) (vps : List (ℕ × ℚ)) (acc : List (ℕ × List (ℚ × ℚ))) :
    List (ℕ × List (ℚ × ℚ)) :=
  vps.foldl (fun a p => addCand p.1 (d, p.2) a) acc

/-- One step of the outer loop over `n2d.iteritems()`: a node `nd` present
in `n2v` with a non-`None` entry contributes all its voxels at distance
`d`; other nodes contribute nothing. -/
def buildStep (n2v : N2V) (acc : List (ℕ × List (ℚ × ℚ))) (p : ℕ × ℚ) :
    List (ℕ × List (ℚ × ℚ)) :=
  match List.lookup p.1 n2v with
  | some (some vps) => addNodeCands p.2 vps acc
  | _ => acc

/-- Outer loop `for nd, d in n2d.iteritems(): if nd in n2v: ...` building
`v2dps`. -/
def buildV2dps (n2d : List (ℕ × ℚ)) (n2v : N2V) : List (ℕ × List (ℚ × ℚ)) :=
  n2d.foldl (buildStep n2v) []

/-- The sort key of `vdp.sort(key=operator.itemgetter(1))`: compare the
`(vx, d, p)` triples by their distance component only. -/
def distKeyLe (a b : ℕ × ℚ × ℚ) : Prop := a.2.1 ≤ b.2.1

instance (a b : ℕ × ℚ × ℚ) : Decidable (distKeyLe a b) := by
  unfold distKeyLe; infer_instance

instance : IsTotal (ℕ × ℚ × ℚ) distKeyLe := ⟨fun a b => le_total a.2.1 b.2.1⟩

instance : IsTrans (ℕ × ℚ × ℚ) distKeyLe := ⟨fun _ _ _ => le_trans⟩

/-- Embedding of `VoxelSelector.nodes2voxel_attributes` (lines 300-381):
collect all `(distance, position)` candidates per voxel, reduce each voxel
to its `min` candidate, sort the `(vx, d, p)` triples by distance (Python's
`list.sort(key=itemgetter(1))` is a stable sort; it is embedded as the
stable `insertionSort`), and unzip into the three parallel lists.  The
`np.asarray` dtype casts are identities in this embedding (float rounding
is not modelled). -/
def nodes2voxel_attributes (n2d : List (ℕ × ℚ)) (n2v : N2V) : VoxProps :=
  let v2dps := buildV2dps n2d n2v
  let vdp := v2dps.map (fun p => (p.1, lexMinList p.2))
  let vdpSorted := List.insertionSort distKeyLe vdp
  { linear_voxel_indices := vdpSorted.map (·.1)
    center_distances := vdpSorted.map (·.2.1)
    grey_matter_position := vdpSorted.map (·.2.2) }

/-! ### QuantileSelector: `VoxelSelector._select_approx` -/

/-- Distance at position `i` of the sorted distance list `allds`
(`allds[i]` in the source; positions are always in range where used). -/
def dAt (ds : List ℚ) (i : ℕ) : ℚ := ds.getD i 0

/-- Loop state of the chunk scan in `_select_approx`: `curchunk` (the index
positions of the chunk currently being scanned), `prevd` (distance at the
previous position) and `chunkcount` (number of chunks started so far). -/
structure ChunkSt where
  curchunk : List ℕ
  prevd : ℚ
  chunkcount : ℕ
deriving DecidableEq

/-- The `for i in xrange(n)` scan of `_select_approx` (lines 156-166),
starting at position `i` with `fuel` iterations of budget remaining
(callers pass `fuel = n - i`, so the fuel never runs out before `i = n`). -/
def chunkGo (ds : List ℚ) (count : ℕ) : ℕ → ℕ → ChunkSt → ChunkSt
  | 0, _, st => st
  | fuel + 1, i, st =>
    match ds[i]? with
    | none => st
    | some d =>
      if 0 < i ∧ st.prevd ≠ d then
        if count ≤ i then st
        else chunkGo ds count fuel (i + 1) ⟨[i], d, st.chunkcount + 1⟩
      else chunkGo ds count fuel (i + 1) ⟨st.curchunk ++ [i], d, st.chunkcount⟩

/-- The full chunk scan: initial state `curchunk = []`, `prevd = allds[0]`,
`chunkcount = 1`, loop from `i = 0`. -/
def chunkLoop (ds : List ℚ) (count : ℕ) : ChunkSt :=
  chunkGo ds count ds.length 0 ⟨[], ds.headD 0, 1⟩

/-- Position `firstpos = curchunk[0]` (line 170; `curchunk` is never empty
there). -/
def select_firstpos (ds : List ℚ) (count : ℕ) : ℕ :=
  (chunkLoop ds count).curchunk.headD 0

/-- Position `lastpos = curchunk[-1]` (line 171). -/
def select_lastpos (ds : List ℚ) (count : ℕ) : ℕ :=
  (chunkLoop ds count).curchunk.getLastD 0

/-- The value `delta = (count - firstpos) - (lastpos - count)` (line 174),
a Python int, possibly negative. -/
def select_delta (ds : List ℚ) (count : ℕ) : ℤ :=
  ((count : ℤ) - select_firstpos ds count) - ((select_lastpos ds count : ℤ) - count)

/-- The cut position chosen by lines 175-183: include the straddling chunk
when `delta > 0`, exclude it when `delta < 0`, and on a tie decide by the
parity of `chunkcount`. -/
def select_cutpos (ds : List ℚ) (count : ℕ) : ℕ :=
  if 0 < select_delta ds count then select_lastpos ds count + 1
  else if select_delta ds count < 0 then select_firstpos ds count
  else if (chunkLoop ds count).chunkcount % 2 = 0 then select_firstpos ds count
  else select_lastpos ds count + 1

/-- Embedding of `VoxelSelector._select_approx` (lines 105-188).
`count = none` returns the input unchanged; a set with fewer than `count`
voxels (or none at all) returns `none` (Python `None`, the "insufficient"
signal); otherwise all three lists are truncated at the computed cut
position.  The `KeyError` branch is not modelled: the `VoxProps` structure
always carries the `center_distances` key. -/
def select_approx (voxprops : VoxProps) : Option ℕ → Option VoxProps
  | none => some voxprops
  | some count =>
    let allds := voxprops.center_distances
    let n := allds.length
    if n < count ∨ n = 0 then none
    else
      let c := select_cutpos allds count
      some ⟨voxprops.linear_voxel_indices.take c, allds.take c,
            voxprops.grey_matter_position.take c⟩

/-! ### VoxelSelector: eligibility check and growth loop
(`disc_voxel_attributes`, lines 191-285)

The two external oracles are passed as function arguments, already applied
to the center node:
* `oracle r` stands for `surf.circlearound_n2d(src, r, distance_metric)`;
* `dijkstra m` stands for `surf.dijkstra_distance(src, maxdistance=m)`. -/

/-- The local helper `node_in_vol(nd)`: `nd in n2v and not n2v[nd] is None`
(line 213).  Note an *empty* (but non-`None`) voxel dict also counts as
inside. -/
def nodeInVol (n2v : N2V) (nd : ℕ) : Bool :=
  match List.lookup nd n2v with
  | some (some _) => true
  | _ => false

/-- Whether `outside_node_margin is True` holds. -/
def isTrueMargin : OutsideMargin → Bool
  | .omTrue => true
  | _ => false

/-- Lines 276-285, run after the growth loop ends with iteration counter
`iter` and loop result `va` (`None` or the attribute dict):
* `if iter + 1 >= maxiter:` the `raise` line is executed — because the `%`
  operator is missing in the format expression, this raises
  `TypeError: 'str' object is not callable` (see `SvsError`).  This branch
  also fires when the selection *succeeded* at the last iteration.
* otherwise `if voxel_attributes:` — the three-key dict is always truthy,
  so for a dict result the code evaluates
  `voxel_attributes[CENTER_DISTANCES][-1]`, an `IndexError` when the
  distance array is empty; `optimizer.set_final` itself is a no-op. -/
def growthPost (iter : ℕ) (va : Option VoxProps) : Except SvsError PyReturn :=
  if 100 ≤ iter + 1 then .error .strFormatTypeError
  else
    match va with
    | none => .ok .pyNone
    | some vp =>
      match vp.center_distances.getLast? with
      | none => .error .emptyIndexError
      | some _ => .ok (.pyDict vp)

/-- The growth loop `for iter in xrange(maxiter)` (lines 252-274) from
iteration `i` with trial radius `r` and `fuel` iterations remaining after
the current one (entry point: `fuel = 99`, `i = 0`, `r` the optimizer's
start radius).  Each unsuccessful iteration multiplies the radius by the
optimizer's factor `1.5` (`optimizer.get_next()`); at the last iteration
(`fuel = 0`) an unsuccessful trial falls through to the post-loop code
with the loop variable still equal to `i` (Python calls `get_next()` once
more there, with no observable effect).  The dead reassignment
`voxel_attributes = []` of line 260 is skipped because `allvxdist` is a
three-key dict and thus always truthy, and the assignment is overwritten
in both branches of lines 262-267 anyway. -/
def growthGo (oracle : ℚ → List (ℕ × ℚ)) (n2v : N2V) (fixedradius : Bool)
    (count : ℕ) : ℕ → ℕ → ℚ → Except SvsError PyReturn
  | 0, i, r =>
    let allvxdist := nodes2voxel_attributes (oracle r) n2v
    let va := if fixedradius then select_approx allvxdist none
              else select_approx allvxdist (some count)
    match va with
    | some vp => growthPost i (some vp)
    | none => growthPost i none
  | fuel + 1, i, r =>
    let allvxdist := nodes2voxel_attributes (oracle r) n2v
    let va := if fixedradius then select_approx allvxdist none
              else select_approx allvxdist (some count)
    match va with
    | some vp => growthPost i (some vp)
    | none => growthGo oracle n2v fixedradius count fuel (i + 1) (r * (3 / 2))

/-- Embedding of `VoxelSelector.disc_voxel_attributes` (lines 191-285).
`fixedradius`, `count` and `r0` package the selector state set up by
`VoxelSelector.__init__`: fixed-radius vs fixed-count mode, the target
count (`self._targetradius` in fixed-count mode), and the initial radius
(`optimizer.get_start()` always returns the construction-time value).
The eligibility check of lines 216-247 comes first; an ineligible center
returns the Python empty list `[]`. -/
def disc_voxel_attributes (oracle dijkstra : ℚ → List (ℕ × ℚ)) (n2v : N2V)
    (margin : OutsideMargin) (fixedradius : Bool) (count : ℕ) (r0 : ℚ)
    (src : ℕ) : Except SvsError PyReturn :=
  if !nodeInVol n2v src && !isTrueMargin margin then
    let skip : Bool :=
      match margin with
      | .omNone => true
      | .omTrue => true
      | .omInf => !(n2v.any (fun p => p.2.isSome))
      | .omFinite m =>
          !((dijkstra m).any (fun p => nodeInVol n2v p.1 && decide (p.2 ≤ m)))
    if skip then .ok .pyEmptyList
    else growthGo oracle n2v fixedradius count 99 0 r0
  else growthGo oracle n2v fixedradius count 99 0 r0

/-- Embedding of `disc_voxel_indices_and_attributes` (lines 287-297):
`if not attrs: return None, None` catches the empty list `[]` (and the
unreachable `None`); a dict result has its `linear_voxel_indices` key
popped and is returned alongside it. -/
def disc_voxel_indices_and_attributes (oracle dijkstra : ℚ → List (ℕ × ℚ))
    (n2v : N2V) (margin : OutsideMargin) (fixedradius : Bool) (count : ℕ)
    (r0 : ℚ) (src : ℕ) : Except SvsError (Option (List ℕ × List ℚ × List ℚ)) :=
  match disc_voxel_attributes oracle dijkstra n2v margin fixedradius count r0 src with
  | .error e => .error e
  | .ok .pyEmptyList => .ok none
  | .ok .pyNone => .ok none
  | .ok (.pyDict vp) =>
      .ok (some (vp.linear_voxel_indices, vp.center_distances, vp.grey_matter_position))

/-! ### SelectionDriver tail: `_reduce_mapper` and the end of
`voxel_selection` (lines 499-501 and 560-594, single-worker path)

The surface setup, the `node2voxels` table construction and the random
permutation are external collaborators; the embedding takes the permuted
`src_trg_nodes` list and the attribute mapper as inputs.  The result
container `VolumeMaskDictionary` is embedded as an association list with
`add` appending an entry. -/

/-- Result container entries: `(source node, voxel indices, distances,
grey-matter positions)`. -/
abbrev VMD := List (ℕ × List ℕ × List ℚ × List ℚ)

/-- Embedding of `_reduce_mapper` (lines 596-621, progress printing aside):
apply the mapper to each target node and `add` the result to the container
when the returned indices are not `None`; exceptions propagate. -/
def reduce_mapper (mapper : ℕ → Except SvsError (Option (List ℕ × List ℚ × List ℚ))) :
    VMD → List (ℕ × ℕ) → Except SvsError VMD
  | acc, [] => .ok acc
  | acc, (src, trg) :: rest =>
    match mapper trg with
    | .error e => .error e
    | .ok none => reduce_mapper mapper acc rest
    | .ok (some (idxs, dists, poss)) =>
        reduce_mapper mapper (acc ++ [(src, idxs, dists, poss)]) rest

/-- Embedding of the tail of `voxel_selection` on the `nproc = 1` path
(lines 560-567 and 591-594): `node2volume_attributes` is initialised to
`None` (line 501) but then assigned the result of `_reduce_mapper` applied
to a freshly created empty dictionary, so it is never `None` afterwards;
the final warning (line 592) is emitted iff `node2volume_attributes is
None`.  Returns the result together with the warning flag. -/
def voxel_selection_nproc1
    (mapper : ℕ → Except SvsError (Option (List ℕ × List ℚ × List ℚ)))
    (src_trg_nodes : List (ℕ × ℕ)) : Except SvsError (Option VMD × Bool) :=
  match reduce_mapper mapper [] src_trg_nodes with
  | .error e => .error e
  | .ok d =>
    let node2volume_attributes : Option VMD := some d
    .ok (node2volume_attributes, node2volume_attributes.isNone)

/-! ### RadiusOptimizer (`_RadiusOptimizer`, lines 748-792) and the radius
setup of `VoxelSelector.__init__` (lines 84-103)

The initial radius in fixed-count mode is `.001 + 1.5 * sqrt(count)`,
which is irrational for most counts, so this component is embedded over
`ℝ` (the rest of the development stays on `ℚ`; the growth loop above
inlines the optimizer's only observable effect, multiplication by `1.5`). -/

/-- State of a `_RadiusOptimizer` instance.  `__init__` only sets
`_initradius` and `_initmult`; `_curradius` and `_count` are first assigned
by `get_start`, which the selector always calls before reading them, so
the embedding initialises them to the values `get_start` will set. -/
structure RadiusOptimizerState where
  initradius : ℝ
  initmult : ℝ
  curradius : ℝ
  count : ℕ

/-- Embedding of `_RadiusOptimizer.__init__`. -/
noncomputable def radiusOptimizerInit (initradius : ℝ) : RadiusOptimizerState :=
  ⟨initradius, 3 / 2, initradius, 0⟩

/-- Embedding of `get_start`: reset `_curradius` to `_initradius` and
`_count` to `0`, return the radius (value, new state). -/
noncomputable def get_start (s : RadiusOptimizerState) : ℝ × RadiusOptimizerState :=
  (s.initradius, { s with curradius := s.initradius, count := 0 })

/-- Embedding of `get_next`: multiply `_curradius` by `_initmult`,
increment `_count`, return the new radius (value, new state). -/
noncomputable def get_next (s : RadiusOptimizerState) : ℝ × RadiusOptimizerState :=
  (s.curradius * s.initmult,
   { s with curradius := s.curradius * s.initmult, count := s.count + 1 })

/-- Embedding of `set_final`: a `pass` body, the state is unchanged. -/
def set_final (_finalradius : ℝ) (s : RadiusOptimizerState) : RadiusOptimizerState := s

/-- An observable method call on a `_RadiusOptimizer` other than
`get_start`. -/
inductive OptimizerOp where
  | next
  | final (r : ℝ)

/-- Apply one optimizer method call to the state. -/
noncomputable def applyOp (s : RadiusOptimizerState) : OptimizerOp → RadiusOptimizerState
  | .next => (get_next s).2
  | .final r => set_final r s

/-- Apply a sequence of optimizer method calls to the state. -/
noncomputable def applyOps (s : RadiusOptimizerState) (ops : List OptimizerOp) :
    RadiusOptimizerState :=
  ops.foldl applyOp s

/-- The `radius` argument of `VoxelSelector.__init__`: a Python `int`
(fixed voxel count) or `float` (fixed metric radius).  Any other type
raises `TypeError` (not modelled: the claims only concern these two). -/
inductive SearchlightSize where
  | int (c : ℤ)
  | float (r : ℝ)

/-- The initial radius `initradius_mm` computed by `VoxelSelector.__init__`
(lines 87-94): `.001 + 1.5 * float(radius) ** .5` in fixed-count mode, the
radius itself in fixed-radius mode. -/
noncomputable def selector_initradius : SearchlightSize → ℝ
  | .int c => 1 / 1000 + 3 / 2 * Real.sqrt (c : ℝ)
  | .float r => r

/-- The optimizer instance built by `VoxelSelector.__init__` (line 99):
`self._optimizer = _RadiusOptimizer(initradius_mm)`. -/
noncomputable def selector_optimizer (radius : SearchlightSize) : RadiusOptimizerState :=
  radiusOptimizerInit (selector_initradius radius)

/-! ### Specification-side predicates (used only in theorem statements) -/

/-- A node's entry in the node-to-voxel table is present, not `None`, and
non-empty ("the node has a non-empty enclosure"). -/
def hasNonemptyEnclosure (n2v : N2V) (nd : ℕ) : Prop :=
  ∃ vps, List.lookup nd n2v = some (some vps) ∧ vps ≠ []

/-- Node `nd` contributes the candidate pair `dp = (distance, position)`
for voxel `vx`: `(nd, dp.1)` is an entry of the distance map, `nd` has a
(non-`None`) entry `vps` in the voxel table, and `vps` maps `vx` to
`dp.2`. -/
def contributes (n2d : List (ℕ × ℚ)) (n2v : N2V) (vx : ℕ) (dp : ℚ × ℚ) : Prop :=
  ∃ nd vps, (nd, dp.1) ∈ n2d ∧ List.lookup nd n2v = some (some vps) ∧ (vx, dp.2) ∈ vps

/-- The candidate pair `q` is recorded for voxel `vx` in the accumulator
`acc` (the embedded `v2dps`): some entry of `acc` is keyed by `vx` and
contains `q`. -/
def PairsIn (acc : List (ℕ × List (ℚ × ℚ))) (vx : ℕ) (q : ℚ × ℚ) : Prop :=
  ∃ dps, (vx, dps) ∈ acc ∧ q ∈ dps

/-! ### Concrete fixtures used by witnesses and counterexamples -/

/-- The literal voxel attribute set of the spec's tie-break example: six
voxels at sorted distances `[1, 1, 2, 2, 2, 3]`. -/
def vp6 : VoxProps := ⟨[0, 1, 2, 3, 4, 5], [1, 1, 2, 2, 2, 3], [0, 0, 0, 0, 0, 0]⟩

/-- The output of `select_approx` on `vp6` with `count = 3`: the first two
voxels. -/
def out2 : VoxProps := ⟨[0, 1], [1, 1], [0, 0]⟩

/-- A three-voxel attribute set with pairwise distinct distances. -/
def vp3 : VoxProps := ⟨[0, 1, 2], [1, 2, 3], [0, 0, 0]⟩

/-- The output of `select_approx` on `vp3` with `count = 2`. -/
def out3 : VoxProps := ⟨[0, 1], [1, 2], [0, 0]⟩

/-- A distance oracle that never finds any node, at any radius (an isolated
center in a near-empty volume). -/
def emptyOracle : ℚ → List (ℕ × ℚ) := fun _ => []

/-- A node-to-voxel table in which node `0` encloses the single voxel `9`. -/
def n2vOne : N2V := [(0, some [(9, 1)])]

/-- The radius first reached at the 100th growth iteration when starting
from radius `1`: `1.5 ^ 99`. -/
def c2Threshold : ℚ := (3 / 2) ^ 99

/-- A distance oracle that finds node `1` (at distance `1`) exactly once
the trial radius has grown to `c2Threshold`, i.e. at the 100th iteration
of a growth loop started at radius `1`. -/
def stepOracle : ℚ → List (ℕ × ℚ) := fun r => if c2Threshold ≤ r then [(1, 1)] else []

/-- A node-to-voxel table for the `stepOracle` scenario: the center `0`
encloses voxel `9`, its neighbor `1` encloses voxel `5`. -/
def n2vTwo : N2V := [(0, some [(9, 1)]), (1, some [(5, 1)])]

/-- A single-entry node-to-voxel table: node `0` encloses voxel `7`. -/
def n2vW : N2V := [(0, some [(7, 1)])]

/-- A geodesic-distance oracle reporting node `0` at distance `1` whatever
the maximum distance queried. -/
def constOracleW : ℚ → List (ℕ × ℚ) := fun _ => [(0, 1)]

/-! ## Lemmas about the chunk scan of `_select_approx` -/

lemma getElem?_dAt (ds : List ℚ) (i : ℕ) (h : i < ds.length) : ds[i]? = some (dAt ds i) := by
  simp [dAt, List.getD, List.getElem?_eq_getElem h]

lemma range'_headD (a n : ℕ) (h : 0 < n) : (List.range' a n).headD 0 = a := by
  cases n with
  | zero => omega
  | succ m => simp [List.range'_succ]

lemma range'_getLastD (a n : ℕ) (h : 0 < n) : (List.range' a n).getLastD 0 = a + n - 1 := by
  cases n with
  | zero => omega
  | succ m =>
    rw [List.range'_concat, List.getLastD_concat]
    omega

lemma range'_snoc (f i : ℕ) (h : f ≤ i) :
    List.range' f (i - f) ++ [i] = List.range' f (i + 1 - f) := by
  have h1 : i + 1 - f = (i - f) + 1 := by omega
  rw [h1, List.range'_concat]
  have h2 : f + 1 * (i - f) = i := by omega
  rw [h2]

/-- Invariant of the chunk scan: entering iteration `i ≥ 1` while scanning a
chunk that started at position `f < count` (with no chunk boundary strictly
between `f` and `i`), the loop ends on the chunk `[F, l]` that contains
position `count - 1`, maximal on both sides, with `F < count` and either
`l` the last position or a chunk boundary at `l + 1` located at or past
`count`. -/
lemma chunkGo_inv (ds : List ℚ) (k : ℕ) :
    ∀ (fuel i f cc : ℕ),
      ds.length ≤ i + fuel → 1 ≤ i → i ≤ ds.length → f + 1 ≤ i → f + 1 ≤ k →
      (f = 0 ∨ dAt ds (f - 1) ≠ dAt ds f) →
      (∀ j, f < j → j < i → dAt ds (j - 1) = dAt ds j) →
      ∃ F l cc', f ≤ F ∧ F + 1 ≤ k ∧ F ≤ l ∧ i - 1 ≤ l ∧ l < ds.length ∧
        (F = 0 ∨ dAt ds (F - 1) ≠ dAt ds F) ∧
        (∀ j, F < j → j ≤ l → dAt ds (j - 1) = dAt ds j) ∧
        (l + 1 = ds.length ∨ (dAt ds l ≠ dAt ds (l + 1) ∧ k ≤ l + 1)) ∧
        chunkGo ds k fuel i ⟨List.range' f (i - f), dAt ds (i - 1), cc⟩
          = ⟨List.range' F (l + 1 - F), dAt ds l, cc'⟩ := by
  intro fuel
  induction fuel with
  | zero =>
    intro i f cc hfuel h1i hin hfi hfk hcs hnocs
    have hieq : i = ds.length := by omega
    refine ⟨f, ds.length - 1, cc, le_refl f, hfk, by omega, by omega, by omega, hcs, ?_, ?_, ?_⟩
    · intro j hj1 hj2; exact hnocs j hj1 (by omega)
    · left; omega
    · simp only [chunkGo]
      have h1 : i - 1 = ds.length - 1 := by omega
      have h2 : ds.length - 1 + 1 - f = i - f := by omega
      rw [h1, h2]
  | succ fuel ih =>
    intro i f cc hfuel h1i hin hfi hfk hcs hnocs
    by_cases hi : i < ds.length
    · have hsome := getElem?_dAt ds i hi
      simp only [chunkGo, hsome]
      by_cases hd : dAt ds (i - 1) = dAt ds i
      · have hcond : ¬(0 < i ∧ dAt ds (i - 1) ≠ dAt ds i) := fun h => h.2 hd
        rw [if_neg hcond]
        have hsn := range'_snoc f i (by omega)
        rw [hsn]
        have hnocs' : ∀ j, f < j → j < i + 1 → dAt ds (j - 1) = dAt ds j := by
          intro j hj1 hj2
          by_cases hji : j < i
          · exact hnocs j hj1 hji
          · have : j = i := by omega
            subst this
            simpa using hd
        obtain ⟨F, l, cc', hFf, hFk, hFl, hil, hln, hFcs, hFno, hend, heq⟩ :=
          ih (i + 1) f cc (by omega) (by omega) (by omega) (by omega) hfk hcs hnocs'
        refine ⟨F, l, cc', hFf, hFk, hFl, by omega, hln, hFcs, hFno, hend, ?_⟩
        have h3 : i + 1 - 1 = i := by omega
        rw [h3] at heq
        exact heq
      · have hcond : (0 < i ∧ dAt ds (i - 1) ≠ dAt ds i) := ⟨by omega, hd⟩
        rw [if_pos hcond]
        by_cases hki : k ≤ i
        · rw [if_pos hki]
          refine ⟨f, i - 1, cc, le_refl f, hfk, by omega, by omega, by omega, hcs, ?_, ?_, ?_⟩
          · intro j hj1 hj2; exact hnocs j hj1 (by omega)
          · right
            refine ⟨?_, by omega⟩
            have h4 : i - 1 + 1 = i := by omega
            rw [h4]
            exact hd
          · have h5 : i - 1 + 1 - f = i - f := by omega
            rw [h5]
        · rw [if_neg hki]
          have hone : ([i] : List ℕ) = List.range' i (i + 1 - i) := by
            have : i + 1 - i = 1 := by omega
            rw [this, List.range'_one]
          have hnocs'' : ∀ j, i < j → j < i + 1 → dAt ds (j - 1) = dAt ds j := by
            intro j hj1 hj2; omega
          obtain ⟨F, l, cc', hFf, hFk, hFl, hil, hln, hFcs, hFno, hend, heq⟩ :=
            ih (i + 1) i (cc + 1) (by omega) (by omega) (by omega) (by omega) (by omega)
              (Or.inr hd) hnocs''
          refine ⟨F, l, cc', by omega, hFk, hFl, by omega, hln, hFcs, hFno, hend, ?_⟩
          have h3 : i + 1 - 1 = i := by omega
          rw [h3] at heq
          rw [hone]
          exact heq
    · have hieq : i = ds.length := by omega
      have hnone : ds[i]? = none := by
        rw [List.getElem?_eq_none]
        omega
      simp only [chunkGo, hnone]
      refine ⟨f, ds.length - 1, cc, le_refl f, hfk, by omega, by omega, by omega, hcs, ?_, ?_, ?_⟩
      · intro j hj1 hj2; exact hnocs j hj1 (by omega)
      · left; omega
      · have h1 : i - 1 = ds.length - 1 := by omega
        have h2 : ds.length - 1 + 1 - f = i - f := by omega
        rw [h1, h2]

lemma chunkLoop_step (ds : List ℚ) (c : ℕ) (h : 1 ≤ ds.length) :
    chunkLoop ds c = chunkGo ds c (ds.length - 1) 1 ⟨[0], dAt ds 0, 1⟩ := by
  obtain ⟨m, hm⟩ : ∃ m, ds.length = m + 1 := ⟨ds.length - 1, by omega⟩
  unfold chunkLoop
  rw [hm]
  have h0 : ds[0]? = some (dAt ds 0) := getElem?_dAt ds 0 (by omega)
  simp only [chunkGo, h0]
  rw [if_neg (by simp)]
  simp [hm]

lemma chunkLoop_spec (ds : List ℚ) (k : ℕ) (hk : 1 ≤ k) (hkn : k ≤ ds.length) :
    ∃ F l cc', F + 1 ≤ k ∧ F ≤ l ∧ k ≤ l + 1 ∧ l < ds.length ∧
      (F = 0 ∨ dAt ds (F - 1) ≠ dAt ds F) ∧
      (∀ j, F < j → j ≤ l → dAt ds (j - 1) = dAt ds j) ∧
      (l + 1 = ds.length ∨ (dAt ds l ≠ dAt ds (l + 1) ∧ k ≤ l + 1)) ∧
      chunkLoop ds k = ⟨List.range' F (l + 1 - F), dAt ds l, cc'⟩ := by
  have hn : 1 ≤ ds.length := le_trans hk hkn
  obtain ⟨F, l, cc', hFf, hFk, hFl, hil, hln, hFcs, hFno, hend, heq⟩ :=
    chunkGo_inv ds k (ds.length - 1) 1 0 1 (by omega) (by omega) (by omega) (by omega)
      (by omega) (Or.inl rfl) (by intro j hj1 hj2; omega)
  refine ⟨F, l, cc', hFk, hFl, ?_, hln, hFcs, hFno, hend, ?_⟩
  · rcases hend with h | h
    · omega
    · exact h.2
  · rw [chunkLoop_step ds k hn]
    have h1 : List.range' 0 (1 - 0) = [0] := by rw [List.range'_one]
    rw [← h1]
    exact heq

lemma chunkGo_stop (ds : List ℚ) (k fuel i : ℕ) (st : ChunkSt) (h1 : 1 ≤ i)
    (hin : i ≤ ds.length) (hst : i < ds.length → st.prevd = dAt ds (i - 1))
    (h : i = ds.length ∨ (dAt ds (i - 1) ≠ dAt ds i ∧ k ≤ i)) :
    chunkGo ds k fuel i st = st := by
  cases fuel with
  | zero => simp only [chunkGo]
  | succ fuel =>
    by_cases hi : i < ds.length
    · have hsome := getElem?_dAt ds i hi
      simp only [chunkGo, hsome]
      rcases h with h | ⟨hd, hki⟩
      · omega
      · rw [if_pos ⟨by omega, by rw [hst hi]; exact hd⟩, if_pos hki]
    · have hnone : ds[i]? = none := by rw [List.getElem?_eq_none]; omega
      simp only [chunkGo, hnone]

lemma dAt_take (ds : List ℚ) (m j : ℕ) (h : j < m) : dAt (ds.take m) j = dAt ds j := by
  simp [dAt, List.getD, List.getElem?_take, if_pos h]

/-- Rerunning the scan on the length-`m` truncation of the list, with a
target count `K ≥ count`, follows exactly the same steps as the original
scan, provided the original scan stops at `m` (every chunk boundary before
`m` lies below `count`, and `m` is the end of the list or a boundary at or
past `count`). -/
lemma chunkGo_agree (ds : List ℚ) (k K m : ℕ) (hkK : k ≤ K) (hm : m ≤ ds.length)
    (hstarts : ∀ j, 1 ≤ j → j < m → dAt ds (j - 1) ≠ dAt ds j → j < k)
    (hend : m = ds.length ∨ (dAt ds (m - 1) ≠ dAt ds m ∧ k ≤ m)) :
    ∀ (fuel2 fuel1 i : ℕ) (st : ChunkSt), 1 ≤ i → i ≤ m →
      ds.length ≤ i + fuel1 → m ≤ i + fuel2 → st.prevd = dAt ds (i - 1) →
      chunkGo ds k fuel1 i st = chunkGo (ds.take m) K fuel2 i st := by
  intro fuel2
  induction fuel2 with
  | zero =>
    intro fuel1 i st h1i him hf1 hf2 hprev
    have hieq : i = m := by omega
    subst hieq
    simp only [chunkGo]
    exact chunkGo_stop ds k fuel1 i st h1i hm (fun _ => hprev) hend
  | succ fuel2 ih =>
    intro fuel1 i st h1i him hf1 hf2 hprev
    by_cases hieq : i = m
    · subst hieq
      have hnone : (ds.take i)[i]? = none := by
        rw [List.getElem?_eq_none]
        rw [List.length_take]
        omega
      simp only [chunkGo, hnone]
      exact chunkGo_stop ds k fuel1 i st h1i hm (fun _ => hprev) hend
    · have him' : i < m := by omega
      have hiln : i < ds.length := by omega
      obtain ⟨fuel1', rfl⟩ : ∃ f', fuel1 = f' + 1 := ⟨fuel1 - 1, by omega⟩
      have hsome := getElem?_dAt ds i hiln
      have hsome' : (ds.take m)[i]? = some (dAt ds i) := by
        rw [List.getElem?_take, if_pos him', hsome]
      simp only [chunkGo, hsome, hsome']
      by_cases hd : dAt ds (i - 1) = dAt ds i
      · have hcond : ¬(0 < i ∧ st.prevd ≠ dAt ds i) := by
          rw [hprev]; exact fun h => h.2 hd
        rw [if_neg hcond, if_neg hcond]
        exact ih fuel1' (i + 1) ⟨st.curchunk ++ [i], dAt ds i, st.chunkcount⟩
          (by omega) (by omega) (by omega) (by omega) (by simp)
      · have hik : i < k := hstarts i h1i him' hd
        have hcond : (0 < i ∧ st.prevd ≠ dAt ds i) := ⟨by omega, by rw [hprev]; exact hd⟩
        rw [if_pos hcond, if_pos hcond, if_neg (by omega : ¬ k ≤ i),
          if_neg (by omega : ¬ K ≤ i)]
        exact ih fuel1' (i + 1) ⟨[i], dAt ds i, st.chunkcount + 1⟩
          (by omega) (by omega) (by omega) (by omega) (by simp)

lemma chunkLoop_agree (ds : List ℚ) (k K m : ℕ) (hkK : k ≤ K) (hm : m ≤ ds.length)
    (hm1 : 1 ≤ m)
    (hstarts : ∀ j, 1 ≤ j → j < m → dAt ds (j - 1) ≠ dAt ds j → j < k)
    (hend : m = ds.length ∨ (dAt ds (m - 1) ≠ dAt ds m ∧ k ≤ m)) :
    chunkLoop ds k = chunkLoop (ds.take m) K := by
  have hmlen : (ds.take m).length = m := by rw [List.length_take]; omega
  have hn : 1 ≤ ds.length := le_trans hm1 hm
  rw [chunkLoop_step ds k hn, chunkLoop_step (ds.take m) K (by omega), hmlen]
  rw [dAt_take ds m 0 (by omega)]
  exact chunkGo_agree ds k K m hkK hm hstarts hend (m - 1) (ds.length - 1) 1
    ⟨[0], dAt ds 0, 1⟩ (by omega) hm1 (by omega) (by omega) (by simp)

lemma select_positions_spec (ds : List ℚ) (k : ℕ) (hk : 1 ≤ k) (hkn : k ≤ ds.length) :
    ∃ F l, F + 1 ≤ k ∧ F ≤ l ∧ k ≤ l + 1 ∧ l < ds.length ∧
      (F = 0 ∨ dAt ds (F - 1) ≠ dAt ds F) ∧
      (∀ j, F < j → j ≤ l → dAt ds (j - 1) = dAt ds j) ∧
      (l + 1 = ds.length ∨ (dAt ds l ≠ dAt ds (l + 1) ∧ k ≤ l + 1)) ∧
      select_firstpos ds k = F ∧ select_lastpos ds k = l := by
  obtain ⟨F, l, cc', hFk, hFl, hkl, hln, hFcs, hFno, hend, heq⟩ := chunkLoop_spec ds k hk hkn
  refine ⟨F, l, hFk, hFl, hkl, hln, hFcs, hFno, hend, ?_, ?_⟩
  · rw [select_firstpos, heq]
    exact range'_headD F (l + 1 - F) (by omega)
  · rw [select_lastpos, heq]
    have := range'_getLastD F (l + 1 - F) (by omega)
    rw [this]
    omega

lemma chain_const (ds : List ℚ) (F l : ℕ)
    (h : ∀ j, F < j → j ≤ l → dAt ds (j - 1) = dAt ds j) :
    ∀ j, F ≤ j → j ≤ l → dAt ds j = dAt ds F := by
  intro j
  induction j with
  | zero =>
    intro hF _
    have hF0 : F = 0 := by omega
    subst hF0
    rfl
  | succ j ihj =>
    intro hF hl
    by_cases hFj : F = j + 1
    · subst hFj
      rfl
    · have hlt : F < j + 1 := by omega
      have h1 := h (j + 1) hlt hl
      simp only [Nat.add_sub_cancel] at h1
      rw [← h1]
      exact ihj (by omega) (by omega)

/-! ## Claim C6 -/

/-- C6: for every voxel attribute set sorted by ascending distance of
length `n` and every target count `k` with `1 ≤ k ≤ n`, `_select_approx`
truncates at a cut position that is either the first index `F` or one past
the last index `l` of the maximal equal-distance chunk straddling position
`k` (the chunk containing position `k - 1`, maximal on both sides, with
`F < k ≤ l + 1`); hence the returned number of voxels differs from `k` by
at most the size `l + 1 - F` of that chunk. -/
theorem select_approx_cut_at_chunk_boundary (vp : VoxProps) (k : ℕ)
    (_hs : vp.center_distances.Sorted (· ≤ ·)) (hk : 1 ≤ k)
    (hkn : k ≤ vp.center_distances.length) :
    ∃ F l,
      F < k ∧ k ≤ l + 1 ∧ l < vp.center_distances.length ∧ F ≤ l ∧
      (∀ j, F ≤ j → j ≤ l → dAt vp.center_distances j = dAt vp.center_distances F) ∧
      (F = 0 ∨ dAt vp.center_distances (F - 1) ≠ dAt vp.center_distances F) ∧
      (l + 1 = vp.center_distances.length ∨
        dAt vp.center_distances l ≠ dAt vp.center_distances (l + 1)) ∧
      (select_cutpos vp.center_distances k = F ∨
        select_cutpos vp.center_distances k = l + 1) ∧
      select_approx vp (some k)
        = some ⟨vp.linear_voxel_indices.take (select_cutpos vp.center_distances k),
                vp.center_distances.take (select_cutpos vp.center_distances k),
                vp.grey_matter_position.take (select_cutpos vp.center_distances k)⟩ ∧
      ((select_cutpos vp.center_distances k : ℤ) - k).natAbs ≤ l + 1 - F := by
  obtain ⟨F, l, hFk, hFl, hkl, hln, hFcs, hFno, hend, hfirst, hlast⟩ :=
    select_positions_spec vp.center_distances k hk hkn
  have hcuts : select_cutpos vp.center_distances k = F ∨
      select_cutpos vp.center_distances k = l + 1 := by
    unfold select_cutpos
    split_ifs <;> simp [hfirst, hlast]
  refine ⟨F, l, by omega, hkl, hln, hFl, chain_const _ F l hFno, hFcs, ?_, hcuts, ?_, ?_⟩
  · rcases hend with h | h
    · exact Or.inl h
    · exact Or.inr h.1
  · simp only [select_approx]
    rw [if_neg (by omega)]
  · rcases hcuts with h | h <;> rw [h] <;> omega

/-- Witness for C6 at the literal input `vp6` with `k = 3`. -/
theorem select_approx_cut_at_chunk_boundary_witness :
    ∃ F l,
      F < 3 ∧ 3 ≤ l + 1 ∧ l < vp6.center_distances.length ∧ F ≤ l ∧
      (∀ j, F ≤ j → j ≤ l → dAt vp6.center_distances j = dAt vp6.center_distances F) ∧
      (F = 0 ∨ dAt vp6.center_distances (F - 1) ≠ dAt vp6.center_distances F) ∧
      (l + 1 = vp6.center_distances.length ∨
        dAt vp6.center_distances l ≠ dAt vp6.center_distances (l + 1)) ∧
      (select_cutpos vp6.center_distances 3 = F ∨
        select_cutpos vp6.center_distances 3 = l + 1) ∧
      select_approx vp6 (some 3)
        = some ⟨vp6.linear_voxel_indices.take (select_cutpos vp6.center_distances 3),
                vp6.center_distances.take (select_cutpos vp6.center_distances 3),
                vp6.grey_matter_position.take (select_cutpos vp6.center_distances 3)⟩ ∧
      ((select_cutpos vp6.center_distances 3 : ℤ) - 3).natAbs ≤ l + 1 - F :=
  select_approx_cut_at_chunk_boundary vp6 3 (by decide) (by decide) (by decide)

/-! ## Claim C4 -/

/-- C4 (amended): `_select_approx` run on its own (non-insufficient) output
with the same or a larger count `K` returns the output unchanged *provided*
`K` does not exceed the length of that output; whenever the output is
shorter than `K` (in particular whenever the original cut excluded the
boundary chunk, so the output has fewer than `k` voxels), the rerun instead
signals insufficient (`none`). -/
theorem select_approx_idempotent_within_output_length (vp out : VoxProps) (k : ℕ)
    (_hs : vp.center_distances.Sorted (· ≤ ·)) (hk : 1 ≤ k)
    (hsel : select_approx vp (some k) = some out) :
    (∀ K, k ≤ K → K ≤ out.center_distances.length →
      select_approx out (some K) = some out) ∧
    (∀ K, out.center_distances.length < K → select_approx out (some K) = none) := by
  simp only [select_approx] at hsel
  by_cases hguard : vp.center_distances.length < k ∨ vp.center_distances.length = 0
  · rw [if_pos hguard] at hsel; cases hsel
  · rw [if_neg hguard] at hsel
    injection hsel with hout
    subst hout
    constructor
    swap
    · intro K hlen
      simp only [select_approx]
      rw [if_pos (Or.inl hlen)]
    · intro K hkK hKlen
      have hkn : k ≤ vp.center_distances.length := by omega
      set ds := vp.center_distances with hds
      set c := select_cutpos ds k with hc0
      have hlentake : (ds.take c).length = min c ds.length := List.length_take c ds
      simp only [hlentake] at hKlen
      have hKc : K ≤ c := by omega
      have hkc : k ≤ c := by omega
      obtain ⟨F, l, hFk, hFl, hkl, hln, hFcs, hFno, hend, hfirst, hlast⟩ :=
        select_positions_spec ds k hk hkn
      have hcuts : select_cutpos ds k = F ∨ select_cutpos ds k = l + 1 := by
        unfold select_cutpos
        split_ifs <;> simp [hfirst, hlast]
      have hc : c = l + 1 := by
        rcases hcuts with h | h
        · rw [hc0] at hkc; omega
        · rw [hc0, h]
      have hD : select_delta ds k = ((k : ℤ) - F) - ((l : ℤ) - k) := by
        unfold select_delta
        rw [hfirst, hlast]
      have hinc : 0 < select_delta ds k ∨
          (select_delta ds k = 0 ∧ (chunkLoop ds k).chunkcount % 2 ≠ 0) := by
        by_cases h1 : 0 < select_delta ds k
        · exact Or.inl h1
        · by_cases h2 : select_delta ds k < 0
          · exfalso
            have := hc0
            unfold select_cutpos at this
            rw [if_neg h1, if_pos h2, hfirst] at this
            omega
          · by_cases h3 : (chunkLoop ds k).chunkcount % 2 = 0
            · exfalso
              have := hc0
              unfold select_cutpos at this
              rw [if_neg h1, if_neg h2, if_pos h3, hfirst] at this
              omega
            · exact Or.inr ⟨by omega, h3⟩
      have hstarts : ∀ j, 1 ≤ j → j < l + 1 → dAt ds (j - 1) ≠ dAt ds j → j < k := by
        intro j h1 h2 hne
        by_cases hjF : j ≤ F
        · omega
        · exact absurd (hFno j (by omega) (by omega)) hne
      have hend' : l + 1 = ds.length ∨ (dAt ds (l + 1 - 1) ≠ dAt ds (l + 1) ∧ k ≤ l + 1) := by
        rcases hend with h | h
        · exact Or.inl h
        · right
          simpa using h
      have hagree := chunkLoop_agree ds k K (l + 1) hkK (by omega) (by omega) hstarts hend'
      have hfirst' : select_firstpos (ds.take (l + 1)) K = F := by
        unfold select_firstpos at hfirst ⊢
        rw [← hagree]
        exact hfirst
      have hlast' : select_lastpos (ds.take (l + 1)) K = l := by
        unfold select_lastpos at hlast ⊢
        rw [← hagree]
        exact hlast
      have hcc' : (chunkLoop (ds.take (l + 1)) K).chunkcount = (chunkLoop ds k).chunkcount := by
        rw [hagree]
      have hD' : select_delta (ds.take (l + 1)) K = ((K : ℤ) - F) - ((l : ℤ) - K) := by
        unfold select_delta
        rw [hfirst', hlast']
      have hcut' : select_cutpos (ds.take (l + 1)) K = l + 1 := by
        unfold select_cutpos
        rcases hinc with hpos | ⟨hz, hodd⟩
        · have : 0 < select_delta (ds.take (l + 1)) K := by
            rw [hD']
            rw [hD] at hpos
            omega
          rw [if_pos this, hlast']
        · rcases Nat.lt_or_ge k K with hKgt | hKle
          · have : 0 < select_delta (ds.take (l + 1)) K := by
              rw [hD']
              rw [hD] at hz
              omega
            rw [if_pos this, hlast']
          · have hKk : K = k := by omega
            subst hKk
            have hz' : select_delta (ds.take (l + 1)) K = 0 := by
              rw [hD']
              rw [hD] at hz
              omega
            rw [if_neg (by omega), if_neg (by omega), hcc', if_neg hodd, hlast']
      rw [hc]
      simp only [select_approx]
      rw [if_neg ?hguard2]
      case hguard2 =>
        rw [List.length_take]
        push_neg
        constructor <;> omega
      rw [hcut']
      simp [List.take_take]

/-- Counterexample to C4 as stated: on the sorted distances
`[1, 1, 2, 2, 2, 3]` with `count = 3` the selector returns the two-voxel
set `out2`, and re-running it on that own output with the same count does
*not* return the output — it signals insufficient (`None`), because the
output is shorter than the count. -/
theorem select_approx_not_idempotent_on_own_output :
    select_approx vp6 (some 3) = some out2 ∧ select_approx out2 (some 3) = none := by
  constructor <;> decide

/-- Witness for the amended C4: `vp3 = ([1,2,3], count 2)` yields `out3`
of length `2 ≥ count`, and re-running with count `2` returns `out3`
unchanged while count `3` exceeds the output length and is insufficient. -/
theorem select_approx_idempotent_witness :
    select_approx out3 (some 2) = some out3 ∧ select_approx out3 (some 3) = none := by
  have h := select_approx_idempotent_within_output_length vp3 out3 2
    (by decide) (by decide) (by decide)
  exact ⟨h.1 2 (by decide) (by decide), h.2 3 (by decide)⟩

/-! ## Claim C5 -/

/-- Counterexample to C5 as stated: on `[1, 1, 2, 2, 2, 3]` with
`count = 3`, the chunk straddling the cutoff has last position `4` (the
last index of the run of `2`s), not `5`, and `delta = (3-2)-(4-3) = 0`,
not `-1`. -/
theorem select_literal_tie_not_delta_neg :
    select_lastpos vp6.center_distances 3 = 4 ∧
    select_delta vp6.center_distances 3 = 0 ∧
    ¬(select_lastpos vp6.center_distances 3 = 5 ∧
      select_delta vp6.center_distances 3 = -1) := by
  refine ⟨by decide, by decide, ?_⟩
  intro h
  exact absurd h.2 (by decide)

/-- C5 (amended): on `[1, 1, 2, 2, 2, 3]` with `count = 3` the code
identifies the straddling chunk with first position `2` and last position
`4`, computes `delta = (3-2)-(4-3) = 0`, an exact tie broken by the even
number of scanned chunks (`chunkcount = 2`) toward `firstpos`; it
therefore cuts at position `2` and returns exactly the first 2 voxels. -/
theorem select_literal_tie_trace :
    select_firstpos vp6.center_distances 3 = 2 ∧
    select_lastpos vp6.center_distances 3 = 4 ∧
    select_delta vp6.center_distances 3 = 0 ∧
    (chunkLoop vp6.center_distances 3).chunkcount = 2 ∧
    select_cutpos vp6.center_distances 3 = 2 ∧
    select_approx vp6 (some 3) = some out2 := by
  refine ⟨by decide, by decide, by decide, by decide, by decide, by decide⟩

/-! ## Lemmas about the growth loop -/

/-- An eligible center (one inside the volume) always proceeds to the
growth loop, whatever the margin policy. -/
lemma disc_inside (oracle dijkstra : ℚ → List (ℕ × ℚ)) (n2v : N2V)
    (margin : OutsideMargin) (fixedradius : Bool) (count : ℕ) (r0 : ℚ) (src : ℕ)
    (h : nodeInVol n2v src = true) :
    disc_voxel_attributes oracle dijkstra n2v margin fixedradius count r0 src
      = growthGo oracle n2v fixedradius count 99 0 r0 := by
  unfold disc_voxel_attributes
  rw [h]
  simp

/-- If the fixed-count selection is insufficient at every radius, the
growth loop burns all its fuel and falls through to the post-loop code
with `voxel_attributes = None` and the loop variable at its final value. -/
lemma growthGo_allnone (oracle : ℚ → List (ℕ × ℚ)) (n2v : N2V) (count : ℕ)
    (hnone : ∀ r, select_approx (nodes2voxel_attributes (oracle r) n2v) (some count) = none) :
    ∀ fuel i r, growthGo oracle n2v false count fuel i r = growthPost (i + fuel) none := by
  intro fuel
  induction fuel with
  | zero =>
    intro i r
    simp [growthGo, hnone]
  | succ fuel ih =>
    intro i r
    simp only [growthGo, Bool.false_eq_true, if_false, hnone]
    rw [ih (i + 1) (r * (3 / 2))]
    have h : i + 1 + fuel = i + (fuel + 1) := by omega
    rw [h]

/-- In the `stepOracle` scenario started at radius `1 = 1.5 ^ 0`, the
first 99 iterations are insufficient and the selection succeeds exactly at
the 100th iteration (`iter = 99`) — yet the loop ends in the malformed
`raise` because `iter + 1 >= maxiter` cannot tell this success apart from
exhaustion. -/
lemma growthGo_step_success :
    ∀ fuel i, i + fuel = 99 →
      growthGo stepOracle n2vTwo false 1 fuel i ((3 / 2 : ℚ) ^ i) = .error .strFormatTypeError := by
  intro fuel
  induction fuel with
  | zero =>
    intro i h
    have hi : i = 99 := by omega
    subst hi
    have hEq : c2Threshold = (3 / 2 : ℚ) ^ 99 := rfl
    have horacle : stepOracle ((3 / 2 : ℚ) ^ 99) = [(1, 1)] := by
      unfold stepOracle
      rw [if_pos (le_of_eq hEq)]
    simp only [growthGo, Bool.false_eq_true, if_false, horacle]
    rfl
  | succ fuel ih =>
    intro i h
    have hlt : (3 / 2 : ℚ) ^ i < c2Threshold := by
      unfold c2Threshold
      exact pow_lt_pow_right₀ (by norm_num) (by omega)
    have horacle : stepOracle ((3 / 2 : ℚ) ^ i) = [] := by
      unfold stepOracle
      rw [if_neg (not_le.mpr hlt)]
    have hsel : select_approx (nodes2voxel_attributes [] n2vTwo) (some 1) = none := rfl
    simp only [growthGo, Bool.false_eq_true, if_false, horacle, hsel]
    rw [← pow_succ]
    exact ih (i + 1) (by omega)

/-! ## Claim C1 -/

/-- C1: a center (node `0`, inside the volume, fixed count `1`) whose
distance oracle never finds any node exhausts all 100 growth iterations;
the run then aborts, but with `TypeError: 'str' object is not callable`
(the `%` operator is missing from the format expression at line 277), not
with the intended descriptive `ValueError` naming the target count and the
center id. -/
theorem disc_exhaustion_raises_malformed_typeerror :
    disc_voxel_attributes emptyOracle emptyOracle n2vOne .omNone false 1 1 0
      = .error .strFormatTypeError := by
  rw [disc_inside emptyOracle emptyOracle n2vOne .omNone false 1 1 0 rfl]
  rw [growthGo_allnone emptyOracle n2vOne 1 (fun r => rfl) 99 0 1]
  rfl

/-! ## Claim C2 -/

/-- C2: in the `stepOracle` scenario the quantile selection succeeds at
the 100th (last) iteration — the second conjunct exhibits the successful
selection at the threshold radius — but `disc_voxel_attributes` still
raises instead of returning that attribute set: the post-loop check
`iter + 1 >= maxiter` cannot distinguish success at the last iteration
from exhaustion (and the error raised is the malformed-format
`TypeError`). -/
theorem disc_success_at_cap_still_raises :
    disc_voxel_attributes stepOracle emptyOracle n2vTwo .omNone false 1 1 0
        = .error .strFormatTypeError ∧
    select_approx (nodes2voxel_attributes (stepOracle c2Threshold) n2vTwo) (some 1)
        = some ⟨[5], [1], [1]⟩ := by
  constructor
  · rw [disc_inside stepOracle emptyOracle n2vTwo .omNone false 1 1 0 rfl]
    have h := growthGo_step_success 99 0 (by omega)
    rw [show ((3 / 2 : ℚ) ^ 0) = 1 from pow_zero _] at h
    exact h
  · have horacle : stepOracle c2Threshold = [(1, 1)] := by
      unfold stepOracle
      rw [if_pos le_rfl]
    rw [horacle]
    rfl

/-! ## Claim C3 -/

/-- C3: in fixed-radius mode (radius `5.0`), an eligible center (node `0`)
whose trial neighborhood contains zero voxels — the second conjunct shows
the aggregated attribute set is empty — does *not* return that empty set:
the three-key dict passes the `if voxel_attributes:` truthiness guard and
`voxel_attributes[CENTER_DISTANCES][-1]` raises `IndexError` on the empty
distance array before `set_final` can be reached. -/
theorem disc_fixedradius_empty_raises_indexerror :
    disc_voxel_attributes emptyOracle emptyOracle n2vOne .omNone true 0 5 0
        = .error .emptyIndexError ∧
    nodes2voxel_attributes (emptyOracle 5) n2vOne = ⟨[], [], []⟩ :=
  ⟨rfl, rfl⟩

/-! ## Claim C8 -/

lemma lookup_mem {β : Type} (l : List (ℕ × β)) (a : ℕ) (b : β)
    (h : List.lookup a l = some b) : (a, b) ∈ l := by
  induction l with
  | nil => simp [List.lookup] at h
  | cons p t ih =>
    obtain ⟨k, v⟩ := p
    rw [List.lookup] at h
    by_cases hak : a = k
    · subst hak
      simp at h
      subst h
      exact List.mem_cons_self _ _
    · have : (a == k) = false := beq_false_of_ne hak
      rw [this] at h
      exact List.mem_cons_of_mem _ (ih h)

/-- Under the data-model invariant that a node with no enclosed voxels is
recorded as `None` (never as an empty dict), the code's `node_in_vol` test
coincides with having a non-empty enclosure. -/
lemma nodeInVol_iff_enclosure (n2v : N2V) (hne : ∀ p ∈ n2v, p.2 ≠ some [])
    (nd : ℕ) : nodeInVol n2v nd = true ↔ hasNonemptyEnclosure n2v nd := by
  unfold nodeInVol hasNonemptyEnclosure
  cases hl : List.lookup nd n2v with
  | none => simp
  | some o =>
    cases o with
    | none => simp
    | some vps =>
      constructor
      · intro _
        refine ⟨vps, rfl, fun hnil => ?_⟩
        subst hnil
        exact hne (nd, some []) (lookup_mem n2v nd (some []) hl) rfl
      · intro _
        rfl

/-- C8: for a center absent from the node-to-voxel table (or with a `None`
entry), under the data-model invariant that entries are never empty dicts:
with `outside_node_margin = None` the selection returns the empty result
at once, for *any* behavior of the two oracles (so the growth loop is
never consulted); with `True` it proceeds to exactly the growth-loop
computation an in-volume center would run (third conjunct); any node with
a non-empty enclosure is necessarily a node *other* than the center
(fourth conjunct); and with a finite float margin `m` it proceeds if and
only if the geodesic scan up to `m` finds a node with a non-empty
enclosure at distance `≤ m`, returning empty otherwise. -/
theorem disc_outside_node_margin_policy
    (oracle dijkstra : ℚ → List (ℕ × ℚ)) (n2v : N2V) (fixedradius : Bool)
    (count : ℕ) (r0 : ℚ) (src : ℕ)
    (habs : nodeInVol n2v src = false)
    (hne : ∀ p ∈ n2v, p.2 ≠ some []) :
    (disc_voxel_attributes oracle dijkstra n2v .omNone fixedradius count r0 src
       = .ok .pyEmptyList) ∧
    (disc_voxel_attributes oracle dijkstra n2v .omTrue fixedradius count r0 src
       = growthGo oracle n2v fixedradius count 99 0 r0) ∧
    (∀ margin src2, nodeInVol n2v src2 = true →
      disc_voxel_attributes oracle dijkstra n2v margin fixedradius count r0 src2
        = growthGo oracle n2v fixedradius count 99 0 r0) ∧
    (∀ nd, hasNonemptyEnclosure n2v nd → nd ≠ src) ∧
    (∀ m : ℚ,
      ((∃ p, p ∈ dijkstra m ∧ hasNonemptyEnclosure n2v p.1 ∧ p.2 ≤ m) →
        disc_voxel_attributes oracle dijkstra n2v (.omFinite m) fixedradius count r0 src
          = growthGo oracle n2v fixedradius count 99 0 r0) ∧
      ((¬ ∃ p, p ∈ dijkstra m ∧ hasNonemptyEnclosure n2v p.1 ∧ p.2 ≤ m) →
        disc_voxel_attributes oracle dijkstra n2v (.omFinite m) fixedradius count r0 src
          = .ok .pyEmptyList)) := by
  refine ⟨?_, ?_, ?_, ?_, ?_⟩
  · unfold disc_voxel_attributes
    rw [habs]
    simp [isTrueMargin]
  · unfold disc_voxel_attributes
    rw [habs]
    simp [isTrueMargin]
  · intro margin src2 h
    exact disc_inside oracle dijkstra n2v margin fixedradius count r0 src2 h
  · intro nd h heq
    subst heq
    rw [(nodeInVol_iff_enclosure n2v hne nd).mpr h] at habs
    cases habs
  · intro m
    constructor
    · intro ⟨p, hp, hencl, hd⟩
      have hany : ((dijkstra m).any fun p => nodeInVol n2v p.1 && decide (p.2 ≤ m)) = true := by
        rw [List.any_eq_true]
        exact ⟨p, hp, by
          rw [(nodeInVol_iff_enclosure n2v hne p.1).mpr hencl]
          simp [hd]⟩
      unfold disc_voxel_attributes
      rw [habs]
      simp [isTrueMargin, hany]
    · intro hno
      have hany : ((dijkstra m).any fun p => nodeInVol n2v p.1 && decide (p.2 ≤ m)) = false := by
        rw [List.any_eq_false]
        intro p hp
        simp only [Bool.and_eq_true, decide_eq_true_eq, not_and]
        intro hniv hd
        exact hno ⟨p, hp, (nodeInVol_iff_enclosure n2v hne p.1).mp hniv, hd⟩
      unfold disc_voxel_attributes
      rw [habs]
      simp [isTrueMargin, hany]

/-- Witness for C8: center node `5` is absent from `n2vW`; with margin
`None` the result is empty, with `True` it is the growth-loop computation,
with margin `2.0` the scan finds node `0` (non-empty enclosure, distance
`1 ≤ 2`) so selection proceeds, and with margin `0.0` no node qualifies
(distance `1 > 0`) so the result is empty. -/
theorem disc_outside_node_margin_policy_witness :
    disc_voxel_attributes constOracleW constOracleW n2vW .omNone false 1 1 5
      = .ok .pyEmptyList ∧
    disc_voxel_attributes constOracleW constOracleW n2vW .omTrue false 1 1 5
      = growthGo constOracleW n2vW false 1 99 0 1 ∧
    disc_voxel_attributes constOracleW constOracleW n2vW (.omFinite 2) false 1 1 5
      = growthGo constOracleW n2vW false 1 99 0 1 ∧
    disc_voxel_attributes constOracleW constOracleW n2vW (.omFinite 0) false 1 1 5
      = .ok .pyEmptyList := by
  have h := disc_outside_node_margin_policy constOracleW constOracleW n2vW false 1 1 5
    rfl (by decide)
  refine ⟨h.1, h.2.1, ?_, ?_⟩
  · refine (h.2.2.2.2 2).1 ⟨(0, 1), by decide, ⟨[(7, 1)], rfl, by decide⟩, by decide⟩
  · refine (h.2.2.2.2 0).2 ?_
    rintro ⟨p, hp, _, hd⟩
    have hp' : p = (0, 1) := by
      have h0 : constOracleW 0 = [(0, 1)] := rfl
      rw [h0] at hp
      simpa using hp
    subst hp'
    simp at hd
    exact absurd hd (by decide)

/-! ## Claim C9 -/

/-- C9: the run-level empty-selection warning can never fire.  The first
conjunct shows that for *every* mapper and center list the warning flag of
`voxel_selection` (nproc = 1) is `false` — the accumulator passed to
`_reduce_mapper` is the pre-created empty dictionary, never `None`, so the
`node2volume_attributes is None` guard of line 591 is unreachable.  The
second conjunct evaluates a concrete run in which not a single center
produced any voxels (empty node-to-voxel table): the function returns the
degenerate empty result structure, and no warning is surfaced. -/
theorem voxel_selection_no_warning_on_empty_run :
    (∀ (mapper : ℕ → Except SvsError (Option (List ℕ × List ℚ × List ℚ)))
       (pairs : List (ℕ × ℕ)) (d : Option VMD),
       voxel_selection_nproc1 mapper pairs ≠ .ok (d, true)) ∧
    voxel_selection_nproc1
      (fun trg => disc_voxel_indices_and_attributes emptyOracle emptyOracle [] .omNone
        false 1 1 trg)
      [(0, 0), (1, 1), (2, 2)] = .ok (some [], false) := by
  constructor
  · intro mapper pairs d h
    unfold voxel_selection_nproc1 at h
    cases hr : reduce_mapper mapper [] pairs with
    | error e => rw [hr] at h; cases h
    | ok d2 => rw [hr] at h; simp at h
  · rfl

/-- Witness for C9: a concrete instance of the impossibility of the
warning flag. -/
theorem voxel_selection_no_warning_witness :
    voxel_selection_nproc1 (fun _ => .ok none) [] ≠ .ok (some [], true) :=
  voxel_selection_no_warning_on_empty_run.1 (fun _ => .ok none) [] (some [])

/-! ## Claim C10 -/

lemma applyOps_initradius (ops : List OptimizerOp) :
    ∀ s, (applyOps s ops).initradius = s.initradius := by
  induction ops with
  | nil => intro s; rfl
  | cons op rest ih =>
    intro s
    have h : applyOps s (op :: rest) = applyOps (applyOp s op) rest := rfl
    rw [h, ih]
    cases op <;> rfl

lemma iterate_get_next (k : ℕ) :
    ∀ s : RadiusOptimizerState,
      ((fun s => (get_next s).2)^[k] s).initradius = s.initradius ∧
      ((fun s => (get_next s).2)^[k] s).initmult = s.initmult ∧
      ((fun s => (get_next s).2)^[k] s).curradius = s.curradius * s.initmult ^ k := by
  induction k with
  | zero =>
    intro s
    refine ⟨rfl, rfl, ?_⟩
    simp
  | succ k ih =>
    intro s
    rw [Function.iterate_succ_apply]
    obtain ⟨h1, h2, h3⟩ := ih ((fun s => (get_next s).2) s)
    refine ⟨h1, h2, ?_⟩
    rw [h3]
    show s.curradius * s.initmult * s.initmult ^ k = s.curradius * s.initmult ^ (k + 1)
    ring

/-- C10: with an integer count `c` the first trial radius returned by
`get_start` equals `0.001 + 1.5 * sqrt c`; after `k` subsequent `get_next`
calls within one center's search the trial radius equals
`(0.001 + 1.5 * sqrt c) * 1.5 ^ k`; with a float radius `r` the first
trial radius is `r` itself; and `get_start` always returns the
construction-time initial radius, regardless of any prior `get_next` or
`set_final` calls. -/
theorem radius_optimizer_schedule :
    (∀ c : ℕ, (get_start (selector_optimizer (.int (c : ℤ)))).1
        = 1 / 1000 + 3 / 2 * Real.sqrt (c : ℝ)) ∧
    (∀ c k : ℕ,
      ((fun s => (get_next s).2)^[k]
          ((get_start (selector_optimizer (.int (c : ℤ)))).2)).curradius
        = (1 / 1000 + 3 / 2 * Real.sqrt (c : ℝ)) * (3 / 2) ^ k) ∧
    (∀ r : ℝ, (get_start (selector_optimizer (.float r))).1 = r) ∧
    (∀ (s : RadiusOptimizerState) (ops : List OptimizerOp),
      (get_start (applyOps s ops)).1 = s.initradius) := by
  refine ⟨?_, ?_, ?_, ?_⟩
  · intro c
    show selector_initradius (.int (c : ℤ)) = _
    unfold selector_initradius
    push_cast
    ring
  · intro c k
    obtain ⟨h1, h2, h3⟩ := iterate_get_next k ((get_start (selector_optimizer (.int (c : ℤ)))).2)
    rw [h3]
    show selector_initradius (.int (c : ℤ)) * (3 / 2) ^ k = _
    unfold selector_initradius
    push_cast
    ring
  · intro r
    rfl
  · intro s ops
    show (applyOps s ops).initradius = s.initradius
    exact applyOps_initradius ops s

/-! ## Claim C7: lemmas about the aggregation of `nodes2voxel_attributes` -/

lemma pairsIn_nil (vx : ℕ) (q : ℚ × ℚ) : ¬ PairsIn [] vx q := by
  rintro ⟨dps, h, _⟩
  simp at h

lemma pairsIn_cons (v : ℕ) (l : List (ℚ × ℚ)) (t : List (ℕ × List (ℚ × ℚ))) (w : ℕ)
    (q : ℚ × ℚ) : PairsIn ((v, l) :: t) w q ↔ (w = v ∧ q ∈ l) ∨ PairsIn t w q := by
  unfold PairsIn
  constructor
  · rintro ⟨dps, hmem, hq⟩
    rcases List.mem_cons.mp hmem with h | h
    · injection h with h1 h2
      subst h1
      subst h2
      exact Or.inl ⟨rfl, hq⟩
    · exact Or.inr ⟨dps, h, hq⟩
  · rintro (⟨rfl, hq⟩ | ⟨dps, hmem, hq⟩)
    · exact ⟨l, List.mem_cons_self _ _, hq⟩
    · exact ⟨dps, List.mem_cons_of_mem _ hmem, hq⟩

lemma addCand_pairsIn (vx : ℕ) (dp : ℚ × ℚ) :
    ∀ (acc : List (ℕ × List (ℚ × ℚ))) (w : ℕ) (q : ℚ × ℚ),
      PairsIn (addCand vx dp acc) w q ↔ PairsIn acc w q ∨ (w = vx ∧ q = dp) := by
  intro acc
  induction acc with
  | nil =>
    intro w q
    rw [show addCand vx dp [] = [(vx, [dp])] from rfl, pairsIn_cons]
    simp [pairsIn_nil]
  | cons p t ih =>
    intro w q
    obtain ⟨v, l⟩ := p
    by_cases hv : v = vx
    · subst hv
      rw [show addCand v dp ((v, l) :: t) = (v, l ++ [dp]) :: t from by simp [addCand],
        pairsIn_cons, pairsIn_cons]
      simp only [List.mem_append, List.mem_singleton]
      tauto
    · rw [show addCand vx dp ((v, l) :: t) = (v, l) :: addCand vx dp t from by
        simp [addCand, hv], pairsIn_cons, pairsIn_cons, ih]
      tauto

lemma addCand_keys (vx : ℕ) (dp : ℚ × ℚ) :
    ∀ (acc : List (ℕ × List (ℚ × ℚ))) (w : ℕ),
      w ∈ (addCand vx dp acc).map Prod.fst ↔ w ∈ acc.map Prod.fst ∨ w = vx := by
  intro acc
  induction acc with
  | nil =>
    intro w
    simp [addCand]
  | cons p t ih =>
    intro w
    obtain ⟨v, l⟩ := p
    by_cases hv : v = vx
    · subst hv
      rw [show addCand v dp ((v, l) :: t) = (v, l ++ [dp]) :: t from by simp [addCand]]
      simp only [List.map_cons, List.mem_cons]
      tauto
    · rw [show addCand vx dp ((v, l) :: t) = (v, l) :: addCand vx dp t from by
        simp [addCand, hv]]
      simp only [List.map_cons, List.mem_cons, ih]
      tauto

lemma addCand_nodupKeys (vx : ℕ) (dp : ℚ × ℚ) :
    ∀ (acc : List (ℕ × List (ℚ × ℚ))), (acc.map Prod.fst).Nodup →
      ((addCand vx dp acc).map Prod.fst).Nodup := by
  intro acc
  induction acc with
  | nil =>
    intro _
    simp [addCand]
  | cons p t ih =>
    intro h
    obtain ⟨v, l⟩ := p
    rw [List.map_cons, List.nodup_cons] at h
    obtain ⟨hv1, hv2⟩ := h
    by_cases hv : v = vx
    · subst hv
      rw [show addCand v dp ((v, l) :: t) = (v, l ++ [dp]) :: t from by simp [addCand]]
      rw [List.map_cons, List.nodup_cons]
      exact ⟨hv1, hv2⟩
    · rw [show addCand vx dp ((v, l) :: t) = (v, l) :: addCand vx dp t from by
        simp [addCand, hv]]
      simp only [List.map_cons, List.nodup_cons]
      refine ⟨?_, ih hv2⟩
      rw [addCand_keys]
      push_neg
      exact ⟨hv1, hv⟩

lemma addCand_vals (vx : ℕ) (dp : ℚ × ℚ) :
    ∀ (acc : List (ℕ × List (ℚ × ℚ))), (∀ p ∈ acc, p.2 ≠ ([] : List (ℚ × ℚ))) →
      ∀ p ∈ addCand vx dp acc, p.2 ≠ [] := by
  intro acc
  induction acc with
  | nil =>
    intro _ p hp
    simp [addCand] at hp
    subst hp
    simp
  | cons hd t ih =>
    intro h p hp
    obtain ⟨v, l⟩ := hd
    by_cases hv : v = vx
    · subst hv
      rw [show addCand v dp ((v, l) :: t) = (v, l ++ [dp]) :: t from by simp [addCand]] at hp
      rcases List.mem_cons.mp hp with h2 | h2
      · subst h2
        simp
      · exact h p (List.mem_cons_of_mem _ h2)
    · rw [show addCand vx dp ((v, l) :: t) = (v, l) :: addCand vx dp t from by
        simp [addCand, hv]] at hp
      rcases List.mem_cons.mp hp with h2 | h2
      · subst h2
        exact h (v, l) (List.mem_cons_self _ _)
      · exact ih (fun r hr => h r (List.mem_cons_of_mem _ hr)) p h2

lemma addNodeCands_pairsIn (d : ℚ) :
    ∀ (vps : List (ℕ × ℚ)) (acc : List (ℕ × List (ℚ × ℚ))) (w : ℕ) (q : ℚ × ℚ),
      PairsIn (addNodeCands d vps acc) w q ↔
        PairsIn acc w q ∨ ∃ pos, (w, pos) ∈ vps ∧ q = (d, pos) := by
  intro vps
  induction vps with
  | nil =>
    intro acc w q
    simp [addNodeCands]
  | cons p rest ih =>
    intro acc w q
    obtain ⟨vx, pos⟩ := p
    rw [show addNodeCands d ((vx, pos) :: rest) acc
        = addNodeCands d rest (addCand vx (d, pos) acc) from rfl, ih, addCand_pairsIn]
    constructor
    · rintro ((h | ⟨rfl, rfl⟩) | ⟨pos2, hmem, rfl⟩)
      · exact Or.inl h
      · exact Or.inr ⟨pos, List.mem_cons_self _ _, rfl⟩
      · exact Or.inr ⟨pos2, List.mem_cons_of_mem _ hmem, rfl⟩
    · rintro (h | ⟨pos2, hmem, rfl⟩)
      · exact Or.inl (Or.inl h)
      · rcases List.mem_cons.mp hmem with h | h
        · injection h with h1 h2
          subst h1
          subst h2
          exact Or.inl (Or.inr ⟨rfl, rfl⟩)
        · exact Or.inr ⟨pos2, h, rfl⟩

lemma addNodeCands_nodupKeys (d : ℚ) :
    ∀ (vps : List (ℕ × ℚ)) (acc : List (ℕ × List (ℚ × ℚ))),
      (acc.map Prod.fst).Nodup → ((addNodeCands d vps acc).map Prod.fst).Nodup := by
  intro vps
  induction vps with
  | nil =>
    intro acc h
    exact h
  | cons p rest ih =>
    intro acc h
    exact ih (addCand p.1 (d, p.2) acc) (addCand_nodupKeys p.1 (d, p.2) acc h)

lemma addNodeCands_vals (d : ℚ) :
    ∀ (vps : List (ℕ × ℚ)) (acc : List (ℕ × List (ℚ × ℚ))),
      (∀ p ∈ acc, p.2 ≠ ([] : List (ℚ × ℚ))) →
      ∀ p ∈ addNodeCands d vps acc, p.2 ≠ [] := by
  intro vps
  induction vps with
  | nil =>
    intro acc h
    exact h
  | cons p rest ih =>
    intro acc h
    exact ih (addCand p.1 (d, p.2) acc) (addCand_vals p.1 (d, p.2) acc h)

lemma contributes_cons (nd : ℕ) (dd : ℚ) (rest : List (ℕ × ℚ)) (n2v : N2V) (w : ℕ)
    (q : ℚ × ℚ) :
    contributes ((nd, dd) :: rest) n2v w q ↔
      (q.1 = dd ∧ ∃ vps, List.lookup nd n2v = some (some vps) ∧ (w, q.2) ∈ vps) ∨
      contributes rest n2v w q := by
  unfold contributes
  constructor
  · rintro ⟨nd2, vps, hmem, hl, hv⟩
    rcases List.mem_cons.mp hmem with h | h
    · injection h with h1 h2
      subst h1
      exact Or.inl ⟨h2, vps, hl, hv⟩
    · exact Or.inr ⟨nd2, vps, h, hl, hv⟩
  · rintro (⟨hq1, vps, hl, hv⟩ | ⟨nd2, vps, hmem, hl, hv⟩)
    · exact ⟨nd, vps, List.mem_cons.mpr (Or.inl (by rw [hq1])), hl, hv⟩
    · exact ⟨nd2, vps, List.mem_cons_of_mem _ hmem, hl, hv⟩

lemma buildFold_pairsIn (n2v : N2V) :
    ∀ (l : List (ℕ × ℚ)) (acc : List (ℕ × List (ℚ × ℚ))) (w : ℕ) (q : ℚ × ℚ),
      PairsIn (l.foldl (buildStep n2v) acc) w q ↔ PairsIn acc w q ∨ contributes l n2v w q := by
  intro l
  induction l with
  | nil =>
    intro acc w q
    simp [contributes]
  | cons p rest ih =>
    intro acc w q
    obtain ⟨nd, dd⟩ := p
    rw [List.foldl_cons, ih, contributes_cons]
    unfold buildStep
    cases hl : List.lookup nd n2v with
    | none =>
      simp only
      constructor
      · rintro (h | h)
        · exact Or.inl h
        · exact Or.inr (Or.inr h)
      · rintro (h | ⟨_, vps, hl2, _⟩ | h)
        · exact Or.inl h
        · cases hl2
        · exact Or.inr h
    | some o =>
      cases o with
      | none =>
        simp only
        constructor
        · rintro (h | h)
          · exact Or.inl h
          · exact Or.inr (Or.inr h)
        · rintro (h | ⟨_, vps, hl2, _⟩ | h)
          · exact Or.inl h
          · injection hl2 with hl3
            cases hl3
          · exact Or.inr h
      | some vps =>
        simp only
        rw [addNodeCands_pairsIn]
        constructor
        · rintro ((h | ⟨pos, hmem, rfl⟩) | h)
          · exact Or.inl h
          · exact Or.inr (Or.inl ⟨rfl, vps, rfl, hmem⟩)
          · exact Or.inr (Or.inr h)
        · rintro (h | ⟨hq1, vps2, hl2, hv⟩ | h)
          · exact Or.inl (Or.inl h)
          · injection hl2 with hl3
            injection hl3 with hl4
            subst hl4
            refine Or.inl (Or.inr ⟨q.2, hv, ?_⟩)
            rw [← hq1]
          · exact Or.inr h

lemma buildFold_nodupKeys (n2v : N2V) :
    ∀ (l : List (ℕ × ℚ)) (acc : List (ℕ × List (ℚ × ℚ))),
      (acc.map Prod.fst).Nodup → ((l.foldl (buildStep n2v) acc).map Prod.fst).Nodup := by
  intro l
  induction l with
  | nil =>
    intro acc h
    exact h
  | cons p rest ih =>
    intro acc h
    rw [List.foldl_cons]
    refine ih (buildStep n2v acc p) ?_
    unfold buildStep
    cases List.lookup p.1 n2v with
    | none => exact h
    | some o =>
      cases o with
      | none => exact h
      | some vps => exact addNodeCands_nodupKeys p.2 vps acc h

lemma buildFold_vals (n2v : N2V) :
    ∀ (l : List (ℕ × ℚ)) (acc : List (ℕ × List (ℚ × ℚ))),
      (∀ p ∈ acc, p.2 ≠ ([] : List (ℚ × ℚ))) →
      ∀ p ∈ l.foldl (buildStep n2v) acc, p.2 ≠ [] := by
  intro l
  induction l with
  | nil =>
    intro acc h
    exact h
  | cons p rest ih =>
    intro acc h
    rw [List.foldl_cons]
    refine ih (buildStep n2v acc p) ?_
    unfold buildStep
    cases List.lookup p.1 n2v with
    | none => exact h
    | some o =>
      cases o with
      | none => exact h
      | some vps => exact addNodeCands_vals p.2 vps acc h

lemma buildV2dps_pairsIn (n2d : List (ℕ × ℚ)) (n2v : N2V) (w : ℕ) (q : ℚ × ℚ) :
    PairsIn (buildV2dps n2d n2v) w q ↔ contributes n2d n2v w q := by
  unfold buildV2dps
  rw [buildFold_pairsIn]
  simp [pairsIn_nil]

lemma buildV2dps_nodupKeys (n2d : List (ℕ × ℚ)) (n2v : N2V) :
    ((buildV2dps n2d n2v).map Prod.fst).Nodup := by
  unfold buildV2dps
  exact buildFold_nodupKeys n2v n2d [] (by simp)

lemma buildV2dps_vals (n2d : List (ℕ × ℚ)) (n2v : N2V) :
    ∀ p ∈ buildV2dps n2d n2v, p.2 ≠ ([] : List (ℚ × ℚ)) := by
  unfold buildV2dps
  exact buildFold_vals n2v n2d [] (by simp)

lemma keys_iff_pairsIn (acc : List (ℕ × List (ℚ × ℚ)))
    (hvals : ∀ p ∈ acc, p.2 ≠ ([] : List (ℚ × ℚ))) (w : ℕ) :
    w ∈ acc.map Prod.fst ↔ ∃ q, PairsIn acc w q := by
  constructor
  · intro h
    obtain ⟨p, hp, hw⟩ := List.mem_map.mp h
    obtain ⟨v, dps⟩ := p
    obtain ⟨q, hq⟩ := List.exists_mem_of_ne_nil dps (hvals (v, dps) hp)
    subst hw
    exact ⟨q, dps, hp, hq⟩
  · rintro ⟨q, dps, hmem, _⟩
    exact List.mem_map.mpr ⟨(w, dps), hmem, rfl⟩

lemma nodupKeys_unique (acc : List (ℕ × List (ℚ × ℚ))) (h : (acc.map Prod.fst).Nodup)
    (w : ℕ) (a b : List (ℚ × ℚ)) (ha : (w, a) ∈ acc) (hb : (w, b) ∈ acc) : a = b := by
  induction acc with
  | nil => cases ha
  | cons p t ih =>
    rw [List.map_cons, List.nodup_cons] at h
    obtain ⟨h1, h2⟩ := h
    rcases List.mem_cons.mp ha with ha2 | ha2 <;> rcases List.mem_cons.mp hb with hb2 | hb2
    · rw [← hb2] at ha2
      exact (Prod.ext_iff.mp ha2).2
    · exfalso
      rw [← ha2] at h1
      exact h1 (List.mem_map.mpr ⟨(w, b), hb2, rfl⟩)
    · exfalso
      rw [← hb2] at h1
      exact h1 (List.mem_map.mpr ⟨(w, a), ha2, rfl⟩)
    · exact ih h2 ha2 hb2

lemma lexLe_refl (a : ℚ × ℚ) : lexLe a a := Or.inr ⟨rfl, le_refl _⟩

lemma lexLe_trans (a b c : ℚ × ℚ) (h1 : lexLe a b) (h2 : lexLe b c) : lexLe a c := by
  rcases h1 with h1 | ⟨h1, h1p⟩ <;> rcases h2 with h2 | ⟨h2, h2p⟩
  · exact Or.inl (lt_trans h1 h2)
  · exact Or.inl (h2 ▸ h1)
  · left
    rw [h1]
    exact h2
  · exact Or.inr ⟨h1.trans h2, h1p.trans h2p⟩

lemma lexMin2_eq_or (a b : ℚ × ℚ) : lexMin2 a b = a ∨ lexMin2 a b = b := by
  unfold lexMin2
  split_ifs <;> simp

lemma lexMin2_le_left (a b : ℚ × ℚ) : lexLe (lexMin2 a b) a := by
  unfold lexMin2
  split_ifs with h1 h2 h3
  · exact lexLe_refl a
  · exact Or.inl h2
  · exact lexLe_refl a
  · exact Or.inr ⟨le_antisymm (not_lt.mp h1) (not_lt.mp h2), le_of_not_le h3⟩

lemma lexMin2_le_right (a b : ℚ × ℚ) : lexLe (lexMin2 a b) b := by
  unfold lexMin2
  split_ifs with h1 h2 h3
  · exact Or.inl h1
  · exact lexLe_refl b
  · exact Or.inr ⟨le_antisymm (not_lt.mp h2) (not_lt.mp h1), h3⟩
  · exact lexLe_refl b

lemma foldl_lexMin2_mem : ∀ (t : List (ℚ × ℚ)) (a : ℚ × ℚ), t.foldl lexMin2 a ∈ a :: t := by
  intro t
  induction t with
  | nil =>
    intro a
    simp
  | cons b t ih =>
    intro a
    rw [List.foldl_cons]
    have h := ih (lexMin2 a b)
    rcases List.mem_cons.mp h with h2 | h2
    · rcases lexMin2_eq_or a b with h3 | h3
      · rw [h2, h3]
        exact List.mem_cons_self _ _
      · rw [h2, h3]
        exact List.mem_cons_of_mem _ (List.mem_cons_self _ _)
    · exact List.mem_cons_of_mem _ (List.mem_cons_of_mem _ h2)

lemma foldl_lexMin2_le :
    ∀ (t : List (ℚ × ℚ)) (a x : ℚ × ℚ), x ∈ a :: t → lexLe (t.foldl lexMin2 a) x := by
  intro t
  induction t with
  | nil =>
    intro a x hx
    rcases List.mem_cons.mp hx with h | h
    · rw [h]
      exact lexLe_refl a
    · cases h
  | cons b t ih =>
    intro a x hx
    rw [List.foldl_cons]
    rcases List.mem_cons.mp hx with h | h
    · rw [h]
      exact lexLe_trans _ _ _ (ih (lexMin2 a b) (lexMin2 a b) (List.mem_cons_self _ _))
        (lexMin2_le_left a b)
    · rcases List.mem_cons.mp h with h2 | h2
      · rw [h2]
        exact lexLe_trans _ _ _ (ih (lexMin2 a b) (lexMin2 a b) (List.mem_cons_self _ _))
          (lexMin2_le_right a b)
      · exact ih (lexMin2 a b) x (List.mem_cons_of_mem _ h2)

lemma lexMinList_mem (dps : List (ℚ × ℚ)) (h : dps ≠ []) : lexMinList dps ∈ dps := by
  cases dps with
  | nil => exact absurd rfl h
  | cons a t => exact foldl_lexMin2_mem t a

lemma lexMinList_le (dps : List (ℚ × ℚ)) (x : ℚ × ℚ) (hx : x ∈ dps) :
    lexLe (lexMinList dps) x := by
  cases dps with
  | nil => cases hx
  | cons a t => exact foldl_lexMin2_le t a x hx

lemma getD_map_of_lt {α β : Type} (l : List α) (f : α → β) (d : β) (i : ℕ)
    (h : i < l.length) : (l.map f).getD i d = f l[i] := by
  simp [List.getD_eq_getElem?_getD, List.getElem?_map, List.getElem?_eq_getElem h]

/-- C7: `nodes2voxel_attributes` returns three equal-length parallel
sequences, sorted by ascending distance; the output voxels are pairwise
distinct and are exactly those voxels to which some node of the distance
map (present in the voxel table with a non-`None` entry) contributes a
candidate pair; and each output voxel is assigned exactly the minimum,
under lexicographic order on `(distance, position)`, over all pairs
contributed for it. -/
theorem nodes2voxel_attributes_spec (n2d : List (ℕ × ℚ)) (n2v : N2V) :
    (nodes2voxel_attributes n2d n2v).linear_voxel_indices.length
        = (nodes2voxel_attributes n2d n2v).center_distances.length ∧
    (nodes2voxel_attributes n2d n2v).grey_matter_position.length
        = (nodes2voxel_attributes n2d n2v).center_distances.length ∧
    (nodes2voxel_attributes n2d n2v).center_distances.Sorted (· ≤ ·) ∧
    (nodes2voxel_attributes n2d n2v).linear_voxel_indices.Nodup ∧
    (∀ i, i < (nodes2voxel_attributes n2d n2v).center_distances.length →
      contributes n2d n2v
        ((nodes2voxel_attributes n2d n2v).linear_voxel_indices.getD i 0)
        ((nodes2voxel_attributes n2d n2v).center_distances.getD i 0,
         (nodes2voxel_attributes n2d n2v).grey_matter_position.getD i 0) ∧
      ∀ q, contributes n2d n2v
          ((nodes2voxel_attributes n2d n2v).linear_voxel_indices.getD i 0) q →
        lexLe ((nodes2voxel_attributes n2d n2v).center_distances.getD i 0,
               (nodes2voxel_attributes n2d n2v).grey_matter_position.getD i 0) q) ∧
    (∀ vx, vx ∈ (nodes2voxel_attributes n2d n2v).linear_voxel_indices ↔
      ∃ q, contributes n2d n2v vx q) := by
  have hfields : nodes2voxel_attributes n2d n2v
      = ⟨(List.insertionSort distKeyLe
            ((buildV2dps n2d n2v).map (fun p => (p.1, lexMinList p.2)))).map (·.1),
         (List.insertionSort distKeyLe
            ((buildV2dps n2d n2v).map (fun p => (p.1, lexMinList p.2)))).map (·.2.1),
         (List.insertionSort distKeyLe
            ((buildV2dps n2d n2v).map (fun p => (p.1, lexMinList p.2)))).map (·.2.2)⟩ := rfl
  rw [hfields]
  set vdp := (buildV2dps n2d n2v).map (fun p => (p.1, lexMinList p.2)) with hvdp
  set s := List.insertionSort distKeyLe vdp with hsdef
  have hperm : s.Perm vdp := List.perm_insertionSort distKeyLe vdp
  have hsorted : List.Sorted distKeyLe s := List.sorted_insertionSort distKeyLe vdp
  have hkeys : vdp.map (·.1) = (buildV2dps n2d n2v).map Prod.fst := by
    rw [hvdp, List.map_map]
    rfl
  refine ⟨by simp, by simp, ?_, ?_, ?_, ?_⟩
  · exact List.Pairwise.map (fun (x : ℕ × ℚ × ℚ) => x.2.1) (fun a b h => h) hsorted
  · rw [(hperm.map (·.1)).nodup_iff, hkeys]
    exact buildV2dps_nodupKeys n2d n2v
  · intro i hi
    rw [List.length_map] at hi
    rw [getD_map_of_lt s (·.1) 0 i hi, getD_map_of_lt s (·.2.1) 0 i hi,
      getD_map_of_lt s (·.2.2) 0 i hi]
    have hmem : s[i] ∈ vdp := hperm.mem_iff.mp (List.getElem_mem hi)
    obtain ⟨p, hp, heq⟩ := List.mem_map.mp hmem
    obtain ⟨vx, dps⟩ := p
    have hne : dps ≠ [] := buildV2dps_vals n2d n2v (vx, dps) hp
    have hminmem : lexMinList dps ∈ dps := lexMinList_mem dps hne
    rw [← heq]
    constructor
    · show contributes n2d n2v vx ((lexMinList dps).1, (lexMinList dps).2)
      rw [Prod.mk.eta]
      exact (buildV2dps_pairsIn n2d n2v vx (lexMinList dps)).mp ⟨dps, hp, hminmem⟩
    · intro q hq
      show lexLe ((lexMinList dps).1, (lexMinList dps).2) q
      rw [Prod.mk.eta]
      have hq2 : PairsIn (buildV2dps n2d n2v) vx q :=
        (buildV2dps_pairsIn n2d n2v vx q).mpr hq
      obtain ⟨dps2, hp2, hqin⟩ := hq2
      have hd : dps2 = dps :=
        nodupKeys_unique _ (buildV2dps_nodupKeys n2d n2v) vx dps2 dps hp2 hp
      subst hd
      exact lexMinList_le dps2 q hqin
  · intro vx
    have h1 : vx ∈ s.map (·.1) ↔ vx ∈ vdp.map (·.1) := (hperm.map (·.1)).mem_iff
    rw [h1, hkeys,
      keys_iff_pairsIn (buildV2dps n2d n2v) (buildV2dps_vals n2d n2v) vx]
    constructor
    · rintro ⟨q, hq⟩
      exact ⟨q, (buildV2dps_pairsIn n2d n2v vx q).mp hq⟩
    · rintro ⟨q, hq⟩
      exact ⟨q, (buildV2dps_pairsIn n2d n2v vx q).mpr hq⟩
